import Mathlib

/-!
Verification of the expense-tracker application ("Gastos Inteligentes").

The development shallowly embeds the business logic of the React `App`
component: the aggregation of expenses into per-category totals and
percentages (the `useMemo` computing `totalSpent`/`categoryData`), the
archive-and-reset workflow (`handleResetAndArchive`), and the expense
submission flow (`handleSubmit` together with `categorizeExpense`).

Currency amounts are modelled as exact rationals (`ℚ`); the JavaScript
source performs the same arithmetic on IEEE doubles.  Backend effects
(Firestore writes/deletes, the Gemini classification call, the
`window.confirm` dialog) are modelled by explicit oracle parameters, and
the per-user Firestore collections by plain lists.
-/

/-- One expense record, as held in the `expenses` state of the component.
`category` is `Option String` because a stored document may lack the field
(JS `undefined`), which the code treats like the empty string via `||`. -/
structure Expense where
  id : Nat
  amount : ℚ
  category : Option String
  description : String
  classification : String
deriving DecidableEq, Repr

/-- The category key used by the grouping fold: JS
`expense.category || 'No Categorizado'`, where both a missing field and
the empty string are falsy. -/
def normCat : Option String → String
  | none => "No Categorizado"
  | some s => if s = "" then "No Categorizado" else s

/-- One step of the grouping fold:
`acc[category] = (acc[category] || 0) + expense.amount`.  A JS object with
string keys keeps insertion order, so updating an existing key leaves its
position unchanged and a new key is appended at the end. -/
def bumpKey : List (String × ℚ) → String → ℚ → List (String × ℚ)
  | [], cat, amt => [(cat, amt)]
  | (k, v) :: rest, cat, amt =>
    if k = cat then (k, v + amt) :: rest else (k, v) :: bumpKey rest cat amt

/-- `expenses.reduce((sum, expense) => sum + expense.amount, 0)`. -/
def totalSpent (expenses : List Expense) : ℚ :=
  expenses.foldl (fun sum e => sum + e.amount) 0

/-- The `totals` object of the aggregation `useMemo`:
`expenses.reduce((acc, expense) => { acc[cat] = (acc[cat] || 0) + expense.amount }, {})`. -/
def computeTotals (expenses : List Expense) : List (String × ℚ) :=
  expenses.foldl (fun acc e => bumpKey acc (normCat e.category) e.amount) []

/-- One entry of `categoryData` (also the shape of the items of an
archive record's `categorySummary`). -/
structure CategorySummaryEntry where
  category : String
  total : ℚ
  percentage : ℚ
deriving DecidableEq, Repr

/-- `Object.keys(totals).map(category => ({ category, total, percentage }))`
with `percentage = total > 0 ? (totals[category] / total) * 100 : 0`. -/
def mkEntries (total : ℚ) (totals : List (String × ℚ)) : List CategorySummaryEntry :=
  totals.map (fun kv => ⟨kv.1, kv.2, if 0 < total then kv.2 / total * 100 else 0⟩)

/-- The order imposed by the comparator `(a, b) => b.total - a.total`:
`a` may come before `b` exactly when `b.total ≤ a.total`. -/
def entGE (a b : CategorySummaryEntry) : Prop := b.total ≤ a.total

instance : DecidableRel entGE := fun a b => inferInstanceAs (Decidable (b.total ≤ a.total))

instance : IsTotal CategorySummaryEntry entGE := ⟨fun a b => le_total b.total a.total⟩

instance : IsTrans CategorySummaryEntry entGE := ⟨fun _ _ _ h1 h2 => le_trans h2 h1⟩

/-- The `categoryData` of the aggregation `useMemo`:
`data.sort((a, b) => b.total - a.total)` is a stable descending sort by
`total`, which insertion sort with `entGE` implements. -/
def categoryData (expenses : List Expense) : List CategorySummaryEntry :=
  List.insertionSort entGE (mkEntries (totalSpent expenses) (computeTotals expenses))

/-- The expense of the spec's worked example with category `"Comida"`. -/
def exComida : Expense := ⟨1, 100, some "Comida", "asado", "Restaurante"⟩

/-- The expense of the spec's worked example with category `"Otros"`. -/
def exOtros : Expense := ⟨2, 50, some "Otros", "varios", "Varios"⟩

/-! ### Sums over the grouping accumulator and over category entries -/

/-- Sum of the per-category amounts held in a grouping accumulator. -/
def sumVals (l : List (String × ℚ)) : ℚ := (l.map (fun kv => kv.2)).sum

lemma sumVals_nil : sumVals [] = 0 := rfl

lemma sumVals_cons (kv : String × ℚ) (l : List (String × ℚ)) :
    sumVals (kv :: l) = kv.2 + sumVals l := by
  simp [sumVals]

lemma sumVals_bumpKey (acc : List (String × ℚ)) (cat : String) (amt : ℚ) :
    sumVals (bumpKey acc cat amt) = sumVals acc + amt := by
  induction acc with
  | nil => simp [bumpKey, sumVals]
  | cons kv rest ih =>
    obtain ⟨k, v⟩ := kv
    by_cases h : k = cat
    · simp only [bumpKey, if_pos h, sumVals_cons]
      ring
    · simp only [bumpKey, if_neg h, sumVals_cons, ih]
      ring

lemma totalSpent_foldl (es : List Expense) (a : ℚ) :
    es.foldl (fun sum e => sum + e.amount) a = a + totalSpent es := by
  induction es generalizing a with
  | nil => simp [totalSpent]
  | cons e es ih =>
    simp only [totalSpent, List.foldl_cons]
    rw [ih, ih (0 + e.amount)]
    ring

lemma totalSpent_cons (e : Expense) (es : List Expense) :
    totalSpent (e :: es) = e.amount + totalSpent es := by
  have h := totalSpent_foldl es (0 + e.amount)
  simp only [totalSpent, List.foldl_cons] at h ⊢
  rw [h]
  ring

lemma sumVals_foldTotals (es : List Expense) (acc : List (String × ℚ)) :
    sumVals (es.foldl (fun acc e => bumpKey acc (normCat e.category) e.amount) acc)
      = sumVals acc + totalSpent es := by
  induction es generalizing acc with
  | nil => simp [totalSpent]
  | cons e es ih =>
    simp only [List.foldl_cons]
    rw [ih, sumVals_bumpKey, totalSpent_cons]
    ring

lemma sumVals_computeTotals (es : List Expense) :
    sumVals (computeTotals es) = totalSpent es := by
  simpa [computeTotals, sumVals_nil] using sumVals_foldTotals es []

lemma sumTotal_mkEntries (t : ℚ) (ts : List (String × ℚ)) :
    ((mkEntries t ts).map (fun entry => entry.total)).sum = sumVals ts := by
  induction ts with
  | nil => rfl
  | cons kv ts ih => simp [mkEntries, sumVals_cons, ih.symm, List.map_cons]

lemma categoryData_perm (es : List Expense) :
    List.Perm (categoryData es) (mkEntries (totalSpent es) (computeTotals es)) :=
  List.perm_insertionSort entGE _

lemma sumTotal_categoryData (es : List Expense) :
    ((categoryData es).map (fun entry => entry.total)).sum = totalSpent es := by
  rw [((categoryData_perm es).map _).sum_eq, sumTotal_mkEntries, sumVals_computeTotals]

/-- **C4**. For every non-empty expense list, the `total` fields of the
`categoryData` produced by the aggregation sum exactly (over `ℚ`) to the
`totalSpent` it produces. -/
theorem aggregation_totals_sum_eq_totalSpent (es : List Expense) (hne : es ≠ []) :
    ((categoryData es).map (fun entry => entry.total)).sum = totalSpent es :=
  sumTotal_categoryData es

/-- Witness for `aggregation_totals_sum_eq_totalSpent` at the two-expense example. -/
theorem aggregation_totals_sum_eq_totalSpent_witness :
    ((categoryData [exComida, exOtros]).map (fun entry => entry.total)).sum
      = totalSpent [exComida, exOtros] :=
  aggregation_totals_sum_eq_totalSpent [exComida, exOtros] (List.cons_ne_nil _ _)

/-- The one-decimal rendering used by the UI (`percentage.toFixed(1)`),
as a rational: round to the nearest tenth. -/
def toFixed1 (q : ℚ) : ℚ := (round (q * 10) : ℤ) / 10

lemma categoryData_sorted (es : List Expense) :
    List.Pairwise (fun a b => b.total ≤ a.total) (categoryData es) :=
  List.sorted_insertionSort entGE _

lemma categoryData_example :
    categoryData [exComida, exOtros] = [⟨"Comida", 100, 200 / 3⟩, ⟨"Otros", 50, 100 / 3⟩] := by
  norm_num [categoryData, mkEntries, computeTotals, bumpKey, normCat, totalSpent,
    exComida, exOtros, entGE, List.insertionSort, List.orderedInsert]
  decide

/-- **C6**. `categoryData` is always sorted descending by `total`, and on the
spec's worked example (`Comida` 100, `Otros` 50) the aggregation yields
`totalSpent = 150` and entries `(Comida, 100, 200/3)`, `(Otros, 50, 100/3)`,
whose percentages render at one decimal as `66.7` and `33.3`. -/
theorem categoryData_sorted_desc_and_example :
    (∀ es : List Expense, List.Pairwise (fun a b => b.total ≤ a.total) (categoryData es)) ∧
      totalSpent [exComida, exOtros] = 150 ∧
      categoryData [exComida, exOtros] =
        [⟨"Comida", 100, 200 / 3⟩, ⟨"Otros", 50, 100 / 3⟩] ∧
      toFixed1 (200 / 3) = 667 / 10 ∧ toFixed1 (100 / 3) = 333 / 10 := by
  refine ⟨categoryData_sorted, ?_, categoryData_example, ?_, ?_⟩
  · norm_num [totalSpent, exComida, exOtros]
  · have h : round ((200 : ℚ) / 3 * 10) = 667 := by
      rw [round_eq]
      rw [show (200 : ℚ) / 3 * 10 + 1 / 2 = 4003 / 6 by norm_num]
      rw [Int.floor_eq_iff]
      norm_num
    rw [toFixed1, h]
    norm_num
  · have h : round ((100 : ℚ) / 3 * 10) = 333 := by
      rw [round_eq]
      rw [show (100 : ℚ) / 3 * 10 + 1 / 2 = 2003 / 6 by norm_num]
      rw [Int.floor_eq_iff]
      norm_num
    rw [toFixed1, h]
    norm_num

/-! ### Positivity and percentage bounds -/

lemma totalSpent_pos (es : List Expense) (hne : es ≠ [])
    (hpos : ∀ e ∈ es, 0 < e.amount) : 0 < totalSpent es := by
  induction es with
  | nil => exact absurd rfl hne
  | cons e es ih =>
    rw [totalSpent_cons]
    rcases es with _ | ⟨f, fs⟩
    · simpa [totalSpent] using hpos e (List.mem_cons_self _ _)
    · have h1 := hpos e (List.mem_cons_self _ _)
      have h2 := ih (List.cons_ne_nil _ _) (fun x hx => hpos x (List.mem_cons_of_mem _ hx))
      linarith

lemma bumpKey_vals_pos (cat : String) (amt : ℚ) (hamt : 0 < amt) :
    ∀ acc : List (String × ℚ), (∀ kv ∈ acc, 0 < kv.2) →
      ∀ kv ∈ bumpKey acc cat amt, 0 < kv.2 := by
  intro acc
  induction acc with
  | nil =>
    intro _ kv hkv
    simp only [bumpKey, List.mem_singleton] at hkv
    simpa [hkv]
  | cons hd rest ih =>
    obtain ⟨k, v⟩ := hd
    intro hacc kv hkv
    by_cases h : k = cat
    · simp only [bumpKey, if_pos h] at hkv
      rcases List.mem_cons.mp hkv with h1 | h1
      · have hv : 0 < v := hacc (k, v) (List.mem_cons_self _ _)
        rw [h1]
        exact add_pos hv hamt
      · exact hacc kv (List.mem_cons_of_mem _ h1)
    · simp only [bumpKey, if_neg h] at hkv
      rcases List.mem_cons.mp hkv with h1 | h1
      · rw [h1]
        exact hacc (k, v) (List.mem_cons_self _ _)
      · exact ih (fun x hx => hacc x (List.mem_cons_of_mem _ hx)) kv h1

lemma foldTotals_vals_pos (es : List Expense) :
    (∀ e ∈ es, 0 < e.amount) → ∀ acc, (∀ kv ∈ acc, 0 < kv.2) →
      ∀ kv ∈ es.foldl (fun acc e => bumpKey acc (normCat e.category) e.amount) acc,
        0 < kv.2 := by
  induction es with
  | nil => exact fun _ _ hacc kv hkv => hacc kv hkv
  | cons e es ih =>
    intro hpos acc hacc
    simp only [List.foldl_cons]
    exact ih (fun x hx => hpos x (List.mem_cons_of_mem _ hx)) _
      (bumpKey_vals_pos _ _ (hpos e (List.mem_cons_self _ _)) acc hacc)

lemma computeTotals_vals_pos (es : List Expense) (hpos : ∀ e ∈ es, 0 < e.amount) :
    ∀ kv ∈ computeTotals es, 0 < kv.2 :=
  foldTotals_vals_pos es hpos [] (by simp)

lemma sumVals_nonneg (l : List (String × ℚ)) (h : ∀ kv ∈ l, 0 ≤ kv.2) :
    0 ≤ sumVals l := by
  apply List.sum_nonneg
  intro x hx
  simp only [List.mem_map] at hx
  obtain ⟨kv, hkv, rfl⟩ := hx
  exact h kv hkv

lemma val_le_sumVals (l : List (String × ℚ)) :
    (∀ kv ∈ l, 0 ≤ kv.2) → ∀ kv ∈ l, kv.2 ≤ sumVals l := by
  induction l with
  | nil => simp
  | cons hd rest ih =>
    intro hnn kv hkv
    have hrest : ∀ kv ∈ rest, 0 ≤ kv.2 := fun x hx => hnn x (List.mem_cons_of_mem _ hx)
    rcases List.mem_cons.mp hkv with h1 | h1
    · rw [h1, sumVals_cons]
      have := sumVals_nonneg rest hrest
      linarith
    · have h2 := ih hrest kv h1
      rw [sumVals_cons]
      have := hnn hd (List.mem_cons_self _ _)
      linarith

lemma mem_categoryData (es : List Expense) {entry : CategorySummaryEntry} :
    entry ∈ categoryData es ↔ entry ∈ mkEntries (totalSpent es) (computeTotals es) :=
  (categoryData_perm es).mem_iff

lemma sumPercentage_mkEntries (t : ℚ) (ht : 0 < t) (ts : List (String × ℚ)) :
    ((mkEntries t ts).map (fun entry => entry.percentage)).sum = sumVals ts / t * 100 := by
  induction ts with
  | nil => simp [mkEntries, sumVals_nil]
  | cons kv ts ih =>
    simp only [mkEntries, List.map_cons, List.sum_cons, sumVals_cons, if_pos ht] at ih ⊢
    rw [ih]
    ring

lemma sumPercentage_categoryData (es : List Expense) (ht : 0 < totalSpent es) :
    ((categoryData es).map (fun entry => entry.percentage)).sum = 100 := by
  rw [((categoryData_perm es).map _).sum_eq, sumPercentage_mkEntries _ ht,
    sumVals_computeTotals, div_self (ne_of_gt ht)]
  norm_num

/-- **C5**. For every non-empty expense list with strictly positive amounts,
the percentages in `categoryData` sum to exactly 100 and each lies in
`[0, 100]`. -/
theorem aggregation_percentages_sum_and_bounds (es : List Expense) (hne : es ≠ [])
    (hpos : ∀ e ∈ es, 0 < e.amount) :
    ((categoryData es).map (fun entry => entry.percentage)).sum = 100 ∧
      ∀ entry ∈ categoryData es, 0 ≤ entry.percentage ∧ entry.percentage ≤ 100 := by
  have ht : 0 < totalSpent es := totalSpent_pos es hne hpos
  refine ⟨sumPercentage_categoryData es ht, ?_⟩
  intro entry hmem
  rw [mem_categoryData] at hmem
  simp only [mkEntries, List.mem_map] at hmem
  obtain ⟨kv, hkv, rfl⟩ := hmem
  have hv : 0 < kv.2 := computeTotals_vals_pos es hpos kv hkv
  have hle : kv.2 ≤ totalSpent es := by
    have := val_le_sumVals (computeTotals es)
      (fun x hx => le_of_lt (computeTotals_vals_pos es hpos x hx)) kv hkv
    rwa [sumVals_computeTotals] at this
  simp only [if_pos ht]
  constructor
  · positivity
  · have hdiv : kv.2 / totalSpent es ≤ 1 := (div_le_one ht).mpr hle
    nlinarith

/-- Witness for `aggregation_percentages_sum_and_bounds` at the two-expense example. -/
theorem aggregation_percentages_sum_and_bounds_witness :
    ((categoryData [exComida, exOtros]).map (fun entry => entry.percentage)).sum = 100 ∧
      ∀ entry ∈ categoryData [exComida, exOtros],
        0 ≤ entry.percentage ∧ entry.percentage ≤ 100 :=
  aggregation_percentages_sum_and_bounds [exComida, exOtros] (List.cons_ne_nil _ _)
    (by
      intro e he
      rcases List.mem_cons.mp he with h | h
      · rw [h]; norm_num [exComida]
      · rw [List.mem_singleton.mp h]; norm_num [exOtros])

/-! ### Distinctness of category labels -/

lemma mem_keys_bumpKey (acc : List (String × ℚ)) (cat c : String) (amt : ℚ) :
    c ∈ (bumpKey acc cat amt).map (fun kv => kv.1) ↔
      c ∈ acc.map (fun kv => kv.1) ∨ c = cat := by
  induction acc with
  | nil => simp [bumpKey]
  | cons hd rest ih =>
    obtain ⟨k, v⟩ := hd
    by_cases h : k = cat
    · simp only [bumpKey, if_pos h, List.map_cons, List.mem_cons]
      subst h
      tauto
    · simp only [bumpKey, if_neg h, List.map_cons, List.mem_cons, ih]
      tauto

lemma nodup_keys_bumpKey (acc : List (String × ℚ)) (cat : String) (amt : ℚ) :
    (acc.map (fun kv => kv.1)).Nodup → ((bumpKey acc cat amt).map (fun kv => kv.1)).Nodup := by
  induction acc with
  | nil =>
    intro _
    simp [bumpKey]
  | cons hd rest ih =>
    obtain ⟨k, v⟩ := hd
    intro hnd
    simp only [List.map_cons, List.nodup_cons] at hnd
    obtain ⟨hk, hrest⟩ := hnd
    by_cases h : k = cat
    · simp only [bumpKey, if_pos h, List.map_cons, List.nodup_cons]
      exact ⟨hk, hrest⟩
    · simp only [bumpKey, if_neg h, List.map_cons, List.nodup_cons]
      refine ⟨fun hmem => ?_, ih hrest⟩
      rcases (mem_keys_bumpKey rest cat k amt).mp hmem with h1 | h1
      · exact hk h1
      · exact h h1

lemma mem_keys_foldTotals (es : List Expense) :
    ∀ (acc : List (String × ℚ)) (c : String),
      c ∈ (es.foldl (fun acc e => bumpKey acc (normCat e.category) e.amount) acc).map
            (fun kv => kv.1) ↔
        c ∈ acc.map (fun kv => kv.1) ∨ c ∈ es.map (fun e => normCat e.category) := by
  induction es with
  | nil => simp
  | cons e es ih =>
    intro acc c
    simp only [List.foldl_cons, List.map_cons, List.mem_cons]
    rw [ih, mem_keys_bumpKey]
    tauto

lemma nodup_keys_foldTotals (es : List Expense) :
    ∀ acc : List (String × ℚ), (acc.map (fun kv => kv.1)).Nodup →
      ((es.foldl (fun acc e => bumpKey acc (normCat e.category) e.amount) acc).map
        (fun kv => kv.1)).Nodup := by
  induction es with
  | nil => exact fun _ h => h
  | cons e es ih =>
    intro acc h
    simp only [List.foldl_cons]
    exact ih _ (nodup_keys_bumpKey _ _ _ h)

lemma categories_mkEntries (t : ℚ) (ts : List (String × ℚ)) :
    (mkEntries t ts).map (fun entry => entry.category) = ts.map (fun kv => kv.1) := by
  simp only [mkEntries, List.map_map]
  rfl

/-- **C10**. `categoryData` has pairwise-distinct category labels — exactly
one entry per category occurring in the input, with a missing or empty
category counted as `"No Categorizado"` — and with strictly positive input
amounts every entry's `total` is strictly positive. -/
theorem categoryData_distinct_categories_and_pos_totals (es : List Expense) :
    (((categoryData es).map (fun entry => entry.category)).Nodup ∧
      ∀ c : String, c ∈ (categoryData es).map (fun entry => entry.category) ↔
        c ∈ es.map (fun e => normCat e.category)) ∧
      ((∀ e ∈ es, 0 < e.amount) → ∀ entry ∈ categoryData es, 0 < entry.total) := by
  have hperm := (categoryData_perm es).map (fun entry => entry.category)
  refine ⟨⟨?_, ?_⟩, ?_⟩
  · rw [hperm.nodup_iff, categories_mkEntries]
    exact nodup_keys_foldTotals es [] (by simp)
  · intro c
    rw [hperm.mem_iff, categories_mkEntries]
    have := mem_keys_foldTotals es [] c
    simp only [List.map_nil, List.not_mem_nil, false_or] at this
    exact this
  · intro hpos entry hmem
    rw [mem_categoryData] at hmem
    simp only [mkEntries, List.mem_map] at hmem
    obtain ⟨kv, hkv, rfl⟩ := hmem
    exact computeTotals_vals_pos es hpos kv hkv

/-- Witness for `categoryData_distinct_categories_and_pos_totals`, discharging
the positivity hypothesis at the two-expense example. -/
theorem categoryData_distinct_categories_and_pos_totals_witness :
    (((categoryData [exComida, exOtros]).map (fun entry => entry.category)).Nodup ∧
      ∀ c : String, c ∈ (categoryData [exComida, exOtros]).map (fun entry => entry.category) ↔
        c ∈ [exComida, exOtros].map (fun e => normCat e.category)) ∧
      (∀ entry ∈ categoryData [exComida, exOtros], 0 < entry.total) :=
  ⟨(categoryData_distinct_categories_and_pos_totals [exComida, exOtros]).1,
    (categoryData_distinct_categories_and_pos_totals [exComida, exOtros]).2 (by
      intro e he
      rcases List.mem_cons.mp he with h | h
      · rw [h]; norm_num [exComida]
      · rw [List.mem_singleton.mp h]; norm_num [exOtros])⟩

/-! ### The archival workflow -/

/-- One record of the `history` collection — the `archiveData` object of
`handleResetAndArchive`.  `archiveDate` stands for the opaque
`Timestamp.now()` value. -/
structure ArchiveRecord where
  title : String
  totalSpent : ℚ
  categorySummary : List CategorySummaryEntry
  archiveDate : Nat
  totalExpensesCount : Nat
deriving DecidableEq, Repr

/-- The state the workflow manipulates: the per-user `expenses` and
`history` backend collections (mirrored into component state by the
snapshot listeners) plus the component's `error` message. -/
structure AppState where
  expenses : List Expense
  history : List ArchiveRecord
  error : Option String
deriving DecidableEq, Repr

/-- The message set by the `catch` of `handleResetAndArchive`. -/
def archiveErrMsg : String :=
  "Error al archivar/reiniciar. Consulta la consola para más detalles."

/-- The `archiveData` object built in steps 1-2 of the workflow. -/
def archiveDataOf (currentMonth : String) (now : Nat) (expenses : List Expense) :
    ArchiveRecord :=
  { title := "Resumen de Gastos: " ++ currentMonth
    totalSpent := totalSpent expenses
    categorySummary := (categoryData expenses).map
      (fun item => ⟨item.category, item.total, item.percentage⟩)
    archiveDate := now
    totalExpensesCount := expenses.length }

/-- Result of one archival invocation: the final state plus the ids of the
expenses for which a `deleteDoc` was issued. -/
structure ArchiveResult where
  state : AppState
  issuedDeletes : List Nat
deriving DecidableEq, Repr

/-- `handleResetAndArchive`, with the backend effects as oracles:
`dbReady` is `db && userId`, `confirmOk` the `window.confirm` answer,
`historyWriteOk` whether the `addDoc` into `history` succeeds, and
`deleteOk` whether the `deleteDoc` for a given expense id succeeds.
If the history write throws, the `catch` sets the error before any
`getDocs`/`deleteDoc` runs.  Otherwise all deletes are issued concurrently
(`Promise.all` over `snapshot.docs.map(doc => deleteDoc(doc.ref))`): each
delete settles on its own, so the expenses that remain are exactly those
whose delete rejected, and the error is set iff some delete rejected. -/
def handleResetAndArchive (dbReady confirmOk historyWriteOk : Bool)
    (deleteOk : Nat → Bool) (currentMonth : String) (now : Nat) (st : AppState) :
    ArchiveResult :=
  if !dbReady || st.expenses.isEmpty then ⟨st, []⟩
  else if !confirmOk then ⟨st, []⟩
  else if !historyWriteOk then
    ⟨{ st with error := some archiveErrMsg }, []⟩
  else
    { state :=
        { expenses := st.expenses.filter (fun e => !deleteOk e.id)
          history := st.history ++ [archiveDataOf currentMonth now st.expenses]
          error := if st.expenses.all (fun e => deleteOk e.id) then none
                   else some archiveErrMsg }
      issuedDeletes := st.expenses.map (fun e => e.id) }

lemma isEmpty_false_of_ne_nil {l : List Expense} (hne : l ≠ []) :
    l.isEmpty = false := by
  cases h : l with
  | nil => exact absurd h hne
  | cons a t => rfl

/-- **C1**. If persisting the archive record to the history store fails, the
workflow issues no delete, surfaces an error, and leaves both the current
expense collection and the history collection unchanged (fail-closed). -/
theorem archival_fail_closed (deleteOk : Nat → Bool) (currentMonth : String) (now : Nat)
    (st : AppState) (hne : st.expenses ≠ []) :
    (handleResetAndArchive true true false deleteOk currentMonth now st).issuedDeletes = [] ∧
      (handleResetAndArchive true true false deleteOk currentMonth now st).state.expenses
        = st.expenses ∧
      (handleResetAndArchive true true false deleteOk currentMonth now st).state.history
        = st.history ∧
      (handleResetAndArchive true true false deleteOk currentMonth now st).state.error
        = some archiveErrMsg := by
  simp [handleResetAndArchive, isEmpty_false_of_ne_nil hne]

/-- The concrete two-expense state used by the archival witnesses. -/
def stEx : AppState := ⟨[exComida, exOtros], [], none⟩

/-- Witness for `archival_fail_closed` at a concrete two-expense state. -/
theorem archival_fail_closed_witness :
    (handleResetAndArchive true true false (fun _ => true) "octubre de 2026" 0 stEx).issuedDeletes
        = [] ∧
      (handleResetAndArchive true true false (fun _ => true) "octubre de 2026" 0 stEx).state.expenses
        = stEx.expenses ∧
      (handleResetAndArchive true true false (fun _ => true) "octubre de 2026" 0 stEx).state.history
        = stEx.history ∧
      (handleResetAndArchive true true false (fun _ => true) "octubre de 2026" 0 stEx).state.error
        = some archiveErrMsg :=
  archival_fail_closed (fun _ => true) "octubre de 2026" 0 stEx (List.cons_ne_nil _ _)

/-- **C2**. A successful archival of a non-empty expense set of size `N`
appends exactly one archive record, whose `totalExpensesCount` is `N` and
whose `totalSpent` is the aggregation grand total of the pre-archival set,
and empties the current expense collection. -/
theorem archival_success (deleteOk : Nat → Bool) (currentMonth : String) (now : Nat)
    (st : AppState) (hne : st.expenses ≠ [])
    (hdel : ∀ e ∈ st.expenses, deleteOk e.id = true) :
    (handleResetAndArchive true true true deleteOk currentMonth now st).state.history
        = st.history ++ [archiveDataOf currentMonth now st.expenses] ∧
      (handleResetAndArchive true true true deleteOk currentMonth now st).state.history.length
        = st.history.length + 1 ∧
      (archiveDataOf currentMonth now st.expenses).totalExpensesCount = st.expenses.length ∧
      (archiveDataOf currentMonth now st.expenses).totalSpent = totalSpent st.expenses ∧
      (handleResetAndArchive true true true deleteOk currentMonth now st).state.expenses = [] := by
  have hfilter : st.expenses.filter (fun e => !deleteOk e.id) = [] := by
    rw [List.filter_eq_nil_iff]
    intro e he
    simp [hdel e he]
  simp [handleResetAndArchive, isEmpty_false_of_ne_nil hne, hfilter, archiveDataOf]

/-- Witness for `archival_success` at a concrete two-expense state. -/
theorem archival_success_witness :
    (handleResetAndArchive true true true (fun _ => true) "octubre de 2026" 0 stEx).state.history
        = stEx.history ++ [archiveDataOf "octubre de 2026" 0 stEx.expenses] ∧
      (handleResetAndArchive true true true (fun _ => true) "octubre de 2026" 0 stEx).state.history.length
        = stEx.history.length + 1 ∧
      (archiveDataOf "octubre de 2026" 0 stEx.expenses).totalExpensesCount
        = stEx.expenses.length ∧
      (archiveDataOf "octubre de 2026" 0 stEx.expenses).totalSpent = totalSpent stEx.expenses ∧
      (handleResetAndArchive true true true (fun _ => true) "octubre de 2026" 0 stEx).state.expenses
        = [] :=
  archival_success (fun _ => true) "octubre de 2026" 0 stEx (List.cons_ne_nil _ _)
    (fun _ _ => rfl)

/-! ### Settling of the concurrent delete batch -/

/-- One asynchronous operation of the delete batch, abstracted to the time
at which it settles and whether it fulfills (`ok = true`) or rejects. -/
structure SettledOp where
  time : Nat
  ok : Bool
deriving DecidableEq, Repr

/-- The time at which every operation of the batch has settled
(the completion time `Promise.allSettled` would give). -/
def allSettledTime (ops : List SettledOp) : Nat :=
  (ops.map (fun o => o.time)).foldl max 0

/-- The time at which `await Promise.all(deletePromises)` resumes the
workflow (ECMAScript `Promise.all` semantics): if every promise fulfills,
once the last one has fulfilled; as soon as any promise rejects, at the
earliest rejection, without waiting for the remaining operations. -/
def promiseAllTime (ops : List SettledOp) : Nat :=
  match (ops.filter (fun o => !o.ok)).map (fun o => o.time) with
  | [] => allSettledTime ops
  | t :: ts => ts.foldl min t

lemma foldl_min_le_init (ts : List Nat) : ∀ t : Nat, ts.foldl min t ≤ t := by
  induction ts with
  | nil => simp
  | cons s ts ih => exact fun t => le_trans (ih (min t s)) (min_le_left t s)

lemma foldl_min_le_mem (ts : List Nat) : ∀ t x : Nat, x ∈ ts → ts.foldl min t ≤ x := by
  induction ts with
  | nil => simp
  | cons s ts ih =>
    intro t x hx
    rcases List.mem_cons.mp hx with h | h
    · rw [h]
      exact le_trans (foldl_min_le_init ts (min t s)) (min_le_right t s)
    · exact ih (min t s) x h

/-- Counterexample to **C3** as stated: for a batch of two concurrent
deletes in which the first rejects at time 1 and the second fulfills at
time 2, the awaited `Promise.all` settles at time 1 — the workflow resumes
on the first rejection, before all deletes have settled. -/
theorem promiseAll_not_gated_on_all_settling :
    ¬ promiseAllTime [⟨1, false⟩, ⟨2, true⟩] = allSettledTime [⟨1, false⟩, ⟨2, true⟩] := by
  decide

/-- **C3** (amended). The per-expense deletes are issued as one concurrent
batch (every current expense's delete is issued, regardless of individual
failures), and when **all** deletes fulfill the workflow's completion is
gated on all of them settling; but when some delete rejects, the workflow
resumes no later than that rejection, without awaiting the rest. -/
theorem promiseAll_batch_and_gating (ops : List SettledOp) :
    ((∀ o ∈ ops, o.ok = true) → promiseAllTime ops = allSettledTime ops) ∧
      (∀ o ∈ ops, o.ok = false → promiseAllTime ops ≤ o.time) ∧
      ∀ (deleteOk : Nat → Bool) (currentMonth : String) (now : Nat) (st : AppState),
        st.expenses ≠ [] →
          (handleResetAndArchive true true true deleteOk currentMonth now st).issuedDeletes
            = st.expenses.map (fun e => e.id) := by
  refine ⟨?_, ?_, ?_⟩
  · intro hall
    have hfilter : ops.filter (fun o => !o.ok) = [] := by
      rw [List.filter_eq_nil_iff]
      intro o ho
      simp [hall o ho]
    simp [promiseAllTime, hfilter]
  · intro o ho hfail
    have hmem : o.time ∈ (ops.filter (fun o => !o.ok)).map (fun o => o.time) :=
      List.mem_map_of_mem _ (List.mem_filter.mpr ⟨ho, by simp [hfail]⟩)
    unfold promiseAllTime
    cases hcase : (ops.filter (fun o => !o.ok)).map (fun o => o.time) with
    | nil =>
      rw [hcase] at hmem
      exact absurd hmem (List.not_mem_nil _)
    | cons t ts =>
      rw [hcase] at hmem
      rcases List.mem_cons.mp hmem with h | h
      · rw [h]
        exact foldl_min_le_init ts t
      · exact foldl_min_le_mem ts t o.time h
  · intro deleteOk currentMonth now st hne
    simp [handleResetAndArchive, isEmpty_false_of_ne_nil hne]

/-- Witness for `promiseAll_batch_and_gating`: an all-success batch is gated
on its last settle time, a batch with an early rejection resumes at it, and
the two-expense state issues both deletes. -/
theorem promiseAll_batch_and_gating_witness :
    promiseAllTime [⟨3, true⟩, ⟨5, true⟩] = allSettledTime [⟨3, true⟩, ⟨5, true⟩] ∧
      promiseAllTime [⟨1, false⟩, ⟨2, true⟩] ≤ 1 ∧
      (handleResetAndArchive true true true (fun _ => true) "octubre de 2026" 0 stEx).issuedDeletes
        = stEx.expenses.map (fun e => e.id) :=
  ⟨(promiseAll_batch_and_gating [⟨3, true⟩, ⟨5, true⟩]).1 (by decide),
    (promiseAll_batch_and_gating [⟨1, false⟩, ⟨2, true⟩]).2.1 ⟨1, false⟩ (by decide) rfl,
    (promiseAll_batch_and_gating []).2.2 (fun _ => true) "octubre de 2026" 0 stEx
      (List.cons_ne_nil _ _)⟩

/-! ### The submission flow -/

/-- Whitespace as trimmed by `String.prototype.trim` (the characters that
can occur in this application's inputs). -/
def isWsp (c : Char) : Bool := c = ' ' || c = '\t' || c = '\n' || c = '\r'

/-- JS `s.trim()`: drop leading and trailing whitespace. -/
def trimStr (s : String) : String :=
  ⟨((s.data.dropWhile isWsp).reverse.dropWhile isWsp).reverse⟩

/-- `amount.replace(/[^0-9.]/g, '')`: keep only digits and dots. -/
def stripNonNumeric (s : String) : List Char :=
  s.data.filter (fun c => c.isDigit || c = '.')

/-- Value of a digit string read left to right. -/
def digitsToNat (ds : List Char) : Nat :=
  ds.foldl (fun n c => 10 * n + (c.toNat - 48)) 0

/-- `parseFloat` on a string containing only digits and dots: the longest
numeric prefix `digits (. digits)?`, `NaN` (here `none`) when no digit
can be read before a second dot or the end. -/
def parseFloatStripped (cs : List Char) : Option ℚ :=
  let intPart := cs.takeWhile Char.isDigit
  match cs.dropWhile Char.isDigit with
  | '.' :: rest =>
    let fracPart := rest.takeWhile Char.isDigit
    if intPart = [] && fracPart = [] then none
    else some ((digitsToNat intPart : ℚ)
      + (digitsToNat fracPart : ℚ) / 10 ^ fracPart.length)
  | _ => if intPart = [] then none else some (digitsToNat intPart)

/-- `parseFloat(amount.replace(/[^0-9.]/g, ''))`, with `none` for `NaN`. -/
def numericAmount (s : String) : Option ℚ :=
  parseFloatStripped (stripNonNumeric s)

/-- A JSON value, as produced by `JSON.parse` on the payload text. -/
inductive Json where
  | null
  | bool (b : Bool)
  | num (q : ℚ)
  | str (s : String)
  | arr (elems : List Json)
  | obj (fields : List (String × Json))

/-- Outcome of the fetch-and-extract pipeline inside `categorizeExpense`:
`fetchError` when `fetchWithBackoff` throws (non-2xx or transport failure
with retries exhausted), `noText` when the `candidates...text` path is
missing or empty (falsy), `parseError` when the text is present but
`JSON.parse` throws, and `parsed j` when `JSON.parse` returns the value
`j` — whatever its shape. -/
inductive GeminiOutcome where
  | fetchError
  | noText
  | parseError
  | parsed (j : Json)

/-- The fallback object returned by the `catch` of `categorizeExpense`. -/
def fallbackJson : Json :=
  Json.obj [("category", Json.str "No Categorizado"), ("classification", Json.str "Manual")]

/-- `categorizeExpense`: when `JSON.parse` succeeds its value is returned
unvalidated — the required `category`/`classification` string shape is not
checked — and only the caught failure paths (fetch error, missing/empty
text, parse error) produce the fallback object. -/
def categorizeExpense (outcome : GeminiOutcome) : Json :=
  match outcome with
  | .parsed j => j
  | _ => fallbackJson

/-- JS property access `j["k"]` as used by the destructuring
`const { category, classification } = ...`: an own key of an object (a
later duplicate key overrides an earlier one, as in `JSON.parse`), and
`undefined` (`none`) on any non-object — destructuring `null` itself
throws and is handled separately. -/
def getField (j : Json) (k : String) : Option Json :=
  match j with
  | .obj fields => fields.foldl (fun acc kv => if kv.1 = k then some kv.2 else acc) none
  | _ => none

/-- The document written by `addDoc` for a new expense.  The
`category`/`classification` values are whatever the destructuring
produced (not necessarily strings); `timestamp` stands for the opaque
`Timestamp.now()`. -/
structure NewExpense where
  amount : ℚ
  description : String
  category : Json
  classification : Json
  timestamp : Nat

/-- The partial update written by `updateDoc` when editing: `category` and
`classification` are `none` when the field is not part of the update. -/
structure UpdatedFields where
  amount : ℚ
  description : String
  category : Option Json
  classification : Option Json

/-- Outcome of one `handleSubmit` invocation: whether validation blocked it
before any remote call, the error message shown, how many classification
calls were made, and the write the backend committed (at most one of
`update`/`added`; both `none` when the write was blocked, rejected or never
attempted). -/
structure SubmitResult where
  blocked : Bool
  errorMsg : Option String
  classificationCalls : Nat
  update : Option UpdatedFields
  added : Option NewExpense

/-- The inline validation message of `handleSubmit`. -/
def invalidMsg : String := "Por favor, introduce un monto válido y una descripción."

/-- The not-ready message of `handleSubmit`. -/
def notReadyMsg : String := "La aplicación no está lista aún. Por favor, espera un momento."

/-- The message set by the `catch` of `handleSubmit`. -/
def processErrMsg : String := "Error al procesar el gasto. Intenta nuevamente."

/-- The add path after the classification call: destructure the returned
value and `addDoc` the new expense.  Destructuring `null` throws a
`TypeError`, and Firestore rejects a document with an `undefined` field
value; either way the `catch` of `handleSubmit` sets the error and nothing
is persisted. -/
def persistNew (j : Json) (q : ℚ) (d : String) (now : Nat) : SubmitResult :=
  match j with
  | Json.null => ⟨false, some processErrMsg, 1, none, none⟩
  | j =>
    match getField j "category", getField j "classification" with
    | some cat, some cls => ⟨false, none, 1, none, some ⟨q, d, cat, cls, now⟩⟩
    | _, _ => ⟨false, some processErrMsg, 1, none, none⟩

/-- The changed-description edit path after the classification call:
destructure the returned value and `updateDoc` the expense, failing the
same way as `persistNew` on `null` or `undefined` fields. -/
def persistUpdate (j : Json) (q : ℚ) (d : String) : SubmitResult :=
  match j with
  | Json.null => ⟨false, some processErrMsg, 1, none, none⟩
  | j =>
    match getField j "category", getField j "classification" with
    | some cat, some cls => ⟨false, none, 1, some ⟨q, d, some cat, some cls⟩, none⟩
    | _, _ => ⟨false, some processErrMsg, 1, none, none⟩

/-- `handleSubmit`: validate `amount`/`description`, then either update the
expense under edit (re-classifying only when the trimmed description
differs from `editingOriginalDescription`) or classify and add a new one.
`dbReady` is `db && userId`; `outcome` is the classification-call oracle. -/
def handleSubmit (dbReady : Bool) (amount description : String) (isEditing : Bool)
    (editingOriginalDescription : String) (outcome : GeminiOutcome)
    (now : Nat) : SubmitResult :=
  match numericAmount amount with
  | none => ⟨true, some invalidMsg, 0, none, none⟩
  | some q =>
    if q ≤ 0 then ⟨true, some invalidMsg, 0, none, none⟩
    else if trimStr description = "" then ⟨true, some invalidMsg, 0, none, none⟩
    else if !dbReady then ⟨true, some notReadyMsg, 0, none, none⟩
    else if isEditing then
      if trimStr description ≠ editingOriginalDescription then
        persistUpdate (categorizeExpense outcome) q (trimStr description)
      else
        ⟨false, none, 0, some ⟨q, trimStr description, none, none⟩, none⟩
    else
      persistNew (categorizeExpense outcome) q (trimStr description) now

lemma persistNew_calls (j : Json) (q : ℚ) (d : String) (now : Nat) :
    (persistNew j q d now).classificationCalls = 1 := by
  unfold persistNew
  split
  · rfl
  · split <;> rfl

lemma persistUpdate_calls (j : Json) (q : ℚ) (d : String) :
    (persistUpdate j q d).classificationCalls = 1 := by
  unfold persistUpdate
  split
  · rfl
  · split <;> rfl

/-- Claim C7: on an edit, a classification call is made if and only if the
trimmed description differs from the value it had when edit mode was
entered — an amount-only edit makes no call, a description-changing edit
makes exactly one, whatever the call returns. -/
theorem edit_reclassifies_iff_description_changed (amount description orig : String)
    (outcome : GeminiOutcome) (now : Nat) (q : ℚ)
    (hq : numericAmount amount = some q) (hpos : 0 < q) (hd : trimStr description ≠ "") :
    (handleSubmit true amount description true orig outcome now).classificationCalls
      = if trimStr description = orig then 0 else 1 := by
  have hq0 : ¬ q ≤ 0 := not_le.mpr hpos
  by_cases h : trimStr description = orig
  · have hd' : ¬ orig = "" := h ▸ hd
    simp [handleSubmit, hq, hq0, hd', h]
  · simp [handleSubmit, hq, hq0, hd, h, persistUpdate_calls]

/-- Witness for `edit_reclassifies_iff_description_changed`: an amount-only
edit (description still `"cena"`) makes no classification call. -/
theorem edit_reclassifies_iff_description_changed_witness :
    (handleSubmit true "10" "cena" true "cena" GeminiOutcome.fetchError 0).classificationCalls
      = if trimStr "cena" = "cena" then 0 else 1 :=
  edit_reclassifies_iff_description_changed "10" "cena" "cena" GeminiOutcome.fetchError 0 10
    (by decide) (by norm_num) (by decide)

/-- Counterexample to claim C8 as stated: the malformed payload whose text
parses as the JSON object with no keys is a classification failure, yet the
submission persists nothing and aborts with the error message — the parsed
value skips the fallback, both destructured fields are `undefined`, and
`addDoc` rejects the document. -/
theorem classification_malformed_payload_aborts :
    (handleSubmit true "10" "cena" false "" (GeminiOutcome.parsed (Json.obj [])) 0).added
        = none ∧
      (handleSubmit true "10" "cena" false "" (GeminiOutcome.parsed (Json.obj [])) 0).update
        = none ∧
      (handleSubmit true "10" "cena" false "" (GeminiOutcome.parsed (Json.obj [])) 0).errorMsg
        = some processErrMsg ∧
      (handleSubmit true "10" "cena" false "" (GeminiOutcome.parsed (Json.obj [])) 0).classificationCalls
        = 1 :=
  ⟨rfl, rfl, rfl, rfl⟩

/-- Claim C8 (amended): when the classification call fails in a mode its
`catch` handles — transport/HTTP error with retries exhausted, missing or
empty payload text, or payload text that fails to parse as JSON — a new
submission still persists exactly one expense with category
`"No Categorizado"` and classification `"Manual"`; only a payload that
parses as JSON without the required keys (or as `null`) escapes the
fallback and aborts the submission. -/
theorem classification_caught_failure_still_persists (amount description : String)
    (now : Nat) (q : ℚ) (outcome : GeminiOutcome)
    (hq : numericAmount amount = some q) (hpos : 0 < q) (hd : trimStr description ≠ "")
    (hcaught : ∀ j : Json, outcome ≠ GeminiOutcome.parsed j) :
    (handleSubmit true amount description false "" outcome now).blocked = false ∧
      (handleSubmit true amount description false "" outcome now).added
        = some ⟨q, trimStr description, Json.str "No Categorizado", Json.str "Manual", now⟩ ∧
      (handleSubmit true amount description false "" outcome now).update = none ∧
      (handleSubmit true amount description false "" outcome now).errorMsg = none := by
  have hq0 : ¬ q ≤ 0 := not_le.mpr hpos
  have hcat : categorizeExpense outcome = fallbackJson := by
    cases outcome
    case parsed j => exact absurd rfl (hcaught j)
    all_goals rfl
  simp [handleSubmit, hq, hq0, hd, hcat, persistNew, fallbackJson, getField]

/-- Witness for `classification_caught_failure_still_persists` at a
concrete submission whose classification call fails in transport. -/
theorem classification_caught_failure_still_persists_witness :
    (handleSubmit true "10" "cena" false "" GeminiOutcome.fetchError 0).blocked = false ∧
      (handleSubmit true "10" "cena" false "" GeminiOutcome.fetchError 0).added
        = some ⟨10, trimStr "cena", Json.str "No Categorizado", Json.str "Manual", 0⟩ ∧
      (handleSubmit true "10" "cena" false "" GeminiOutcome.fetchError 0).update = none ∧
      (handleSubmit true "10" "cena" false "" GeminiOutcome.fetchError 0).errorMsg = none :=
  classification_caught_failure_still_persists "10" "cena" 0 10 GeminiOutcome.fetchError
    (by decide) (by norm_num) (by decide) (fun j h => GeminiOutcome.noConfusion h)

/-- The well-formed payload used by the C9 example: category `"Comida"`,
classification `"Cena"`. -/
def exPayload : Json :=
  Json.obj [("category", Json.str "Comida"), ("classification", Json.str "Cena")]

/-- Claim C9: validation either blocks a submission before any remote call
or proceeds with a strictly positive parsed amount; stripping non-`[0-9.]`
characters discards a minus sign, so the input `"-50"` is accepted and
submitted with amount `50`. -/
theorem validation_positive_or_blocked_and_minus_discarded :
    (∀ (dbReady : Bool) (amount description : String) (isEditing : Bool)
        (orig : String) (outcome : GeminiOutcome) (now : Nat),
      (handleSubmit dbReady amount description isEditing orig outcome now).blocked = false →
        ∃ q : ℚ, numericAmount amount = some q ∧ 0 < q) ∧
      numericAmount "-50" = some 50 ∧
      (handleSubmit true "-50" "cena" false "" (GeminiOutcome.parsed exPayload) 0).blocked
        = false ∧
      (handleSubmit true "-50" "cena" false "" (GeminiOutcome.parsed exPayload) 0).added
        = some ⟨50, "cena", Json.str "Comida", Json.str "Cena", 0⟩ := by
  refine ⟨?_, by decide, rfl, rfl⟩
  intro dbReady amount description isEditing orig outcome now hb
  cases hq : numericAmount amount with
  | none => simp [handleSubmit, hq] at hb
  | some q =>
    refine ⟨q, rfl, ?_⟩
    by_cases h0 : q ≤ 0
    · simp [handleSubmit, hq, h0] at hb
    · exact lt_of_not_le h0

/-- Witness for `validation_positive_or_blocked_and_minus_discarded`,
discharging the non-blocked hypothesis of its first conjunct at the
concrete `"-50"` submission. -/
theorem validation_positive_or_blocked_witness :
    ∃ q : ℚ, numericAmount "-50" = some q ∧ 0 < q :=
  validation_positive_or_blocked_and_minus_discarded.1 true "-50" "cena" false ""
    (GeminiOutcome.parsed exPayload) 0 rfl
